import Mathlib

/-!
Shallow embedding of mozilla/rkv, covering:

* the value codec of `src/lib.rs` (`Type`, `Value`, `Value::to_bytes`,
  `Value::from_tagged_slice`, `Value::expected_from_tagged_slice`);
* the safe-mode engine (`src/backend/impl_safe/{database,transaction,environment}.rs`);
* the environment manager (`src/manager.rs`);
* the migrator (`src/migrator.rs`).

Bytes are modelled as `List Nat` with every element below 256.  Machine
integers are modelled as `Nat`/`Int` with explicit two's-complement reduction
modulo `2 ^ 64` where the wire format demands it.
-/

namespace Rkv

/-- A byte string: `&[u8]` / `Box<[u8]>` / `Vec<u8>` from the source. -/
abbrev Bytes := List Nat

/-- All elements of a byte string are actual bytes. -/
def bytesWF (bs : Bytes) : Prop := ∀ b ∈ bs, b < 256

instance (bs : Bytes) : Decidable (bytesWF bs) := by
  unfold bytesWF; infer_instance

/-! ### Little-endian fixed-width integers

`bincode` (the serialization library used by `src/lib.rs`) writes `u64`,
`i64` and the raw bits of `f64` as eight little-endian bytes, and uses a
`u64` little-endian length prefix for borrowed slices and strings. -/

/-- The `w`-byte little-endian encoding of `n % 256 ^ w`. -/
def natToLe : Nat → Nat → Bytes
  | 0, _ => []
  | w + 1, n => n % 256 :: natToLe w (n / 256)

/-- Read a little-endian byte string back into a natural number. -/
def leToNat : Bytes → Nat
  | [] => 0
  | b :: bs => b + 256 * leToNat bs

/-! ### Type tags (`enum Type`, src/lib.rs) -/

/-- Rust `Type` from src/lib.rs: the tag annotating every stored value. -/
inductive TypeM where
  | Bool
  | U64
  | I64
  | F64
  | Instant
  | Uuid
  | Str
  | Json
  deriving DecidableEq, Repr

namespace TypeM

/-- Rust `Type::to_tag` / the `#[repr(u8)]` discriminants of src/lib.rs. -/
def to_tag : TypeM → Nat
  | .Bool => 1
  | .U64 => 2
  | .I64 => 3
  | .F64 => 4
  | .Instant => 5
  | .Uuid => 6
  | .Str => 7
  | .Json => 8

/-- Rust `Type::from_primitive` from src/lib.rs. -/
def from_primitive (p : Nat) : Option TypeM :=
  match p with
  | 1 => some .Bool
  | 2 => some .U64
  | 3 => some .I64
  | 4 => some .F64
  | 5 => some .Instant
  | 6 => some .Uuid
  | 7 => some .Str
  | 8 => some .Json
  | _ => none

end TypeM

/-- Rust `DataError` from src/lib.rs.  The `bincode::ErrorKind` payloads of
`DecodingError` and `EncodingError` are dropped (only the value type is
kept); they never influence control flow. -/
inductive DataErrorM where
  | UnknownType (tag : Nat)
  | UnexpectedType (expected : TypeM) (actual : TypeM)
  | Empty
  | DecodingError (value_type : TypeM)
  | EncodingError
  | InvalidUuid
  deriving DecidableEq, Repr

/-- Rust `Value` from src/lib.rs.  `U64` carries the numeric value (below
`2 ^ 64`); `I64` and `Instant` carry the signed value; `F64` carries the
IEEE-754 bit pattern of the `OrderedFloat<f64>` (bit-level equality refines
the Rust `Eq`, so a bit-exact round trip implies the Rust-level one);
`Uuid` the 16 raw bytes; `Str` and `Json` the UTF-8 bytes of the borrowed
string. -/
inductive ValueM where
  | Bool (b : Bool)
  | U64 (n : Nat)
  | I64 (i : Int)
  | F64 (bits : Nat)
  | Instant (i : Int)
  | Uuid (bs : Bytes)
  | Str (bs : Bytes)
  | Json (bs : Bytes)
  deriving DecidableEq, Repr

/-! ### UTF-8 validity

`bincode` deserializes `&str` via `str::from_utf8`, which accepts exactly
the RFC 3629 byte sequences.  A byte-level DFA over the input: `utf8Step`
consumes one byte given the number of pending continuation bytes together
with the admissible range for the next byte. -/

/-- DFA state: no pending continuation bytes, or `n + 1` pending bytes of
which the first must lie in `[lo, hi]` (subsequent ones in `[0x80, 0xBF]`). -/
inductive Utf8State where
  | start
  | expect (pending : Nat) (lo hi : Nat)
  deriving DecidableEq, Repr

/-- One step of the UTF-8 acceptance DFA (RFC 3629 table). -/
def utf8Step (s : Utf8State) (b : Nat) : Option Utf8State :=
  match s with
  | .expect pending lo hi =>
      if lo ≤ b ∧ b ≤ hi then
        some (if pending = 0 then .start else .expect (pending - 1) 0x80 0xBF)
      else none
  | .start =>
      if b ≤ 0x7F then some .start
      else if 0xC2 ≤ b ∧ b ≤ 0xDF then some (.expect 0 0x80 0xBF)
      else if b = 0xE0 then some (.expect 1 0xA0 0xBF)
      else if 0xE1 ≤ b ∧ b ≤ 0xEC then some (.expect 1 0x80 0xBF)
      else if b = 0xED then some (.expect 1 0x80 0x9F)
      else if 0xEE ≤ b ∧ b ≤ 0xEF then some (.expect 1 0x80 0xBF)
      else if b = 0xF0 then some (.expect 2 0x90 0xBF)
      else if 0xF1 ≤ b ∧ b ≤ 0xF3 then some (.expect 2 0x80 0xBF)
      else if b = 0xF4 then some (.expect 2 0x80 0x8F)
      else none

/-- Run the DFA from a given state. -/
def utf8Run (s : Utf8State) : Bytes → Bool
  | [] => s = .start
  | b :: bs =>
      match utf8Step s b with
      | some s' => utf8Run s' bs
      | none => false

/-- A byte string is valid UTF-8 (the check `str::from_utf8` performs). -/
def utf8Valid (bs : Bytes) : Bool := utf8Run .start bs

/-! ### bincode payload parsers

`src/lib.rs` drives bincode through `serialize(&(tag, payload), Infinite)`
and `deserialize::<T>(data)`.  The relevant wire formats (little-endian
fixnum configuration, the default for this bincode generation):

* `u64` / `i64` / `f64`: eight little-endian bytes (`i64` two's complement,
  `f64` its IEEE-754 bits);
* `bool`: one byte, `1` for true and `0` for false;
* `&[u8]` / `&str`: a `u64` little-endian byte-length prefix followed by
  the raw bytes (`&str` additionally checked for UTF-8 validity);
* `[u8; 16]` (via serde's array-as-tuple instance): the 16 raw bytes with
  no length prefix.

`deserialize` reads a prefix of its input and ignores trailing bytes. -/

/-- Parse a bincode `u64`: the first eight bytes, little-endian. -/
def parseU64 (data : Bytes) : Option Nat :=
  if 8 ≤ data.length then some (leToNat (data.take 8)) else none

/-- Interpret a 64-bit pattern as a two's-complement `i64`. -/
def toI64 (n : Nat) : Int :=
  if n < 2 ^ 63 then (n : Int) else (n : Int) - 2 ^ 64

/-- Parse a bincode `i64`. -/
def parseI64 (data : Bytes) : Option Int :=
  (parseU64 data).map toI64

/-- Parse a bincode `bool`. -/
def parseBool (data : Bytes) : Option Bool :=
  match data with
  | [] => none
  | b :: _ => if b = 1 then some true else if b = 0 then some false else none

/-- Parse a bincode borrowed slice `&[u8]`: `u64` length prefix, then that
many raw bytes. -/
def parseBytes (data : Bytes) : Option Bytes :=
  if 8 ≤ data.length then
    let len := leToNat (data.take 8)
    let rest := data.drop 8
    if len ≤ rest.length then some (rest.take len) else none
  else none

/-- Parse a bincode borrowed `&str`: a slice that passes the UTF-8 check. -/
def parseStr (data : Bytes) : Option Bytes :=
  match parseBytes data with
  | some bs => if utf8Valid bs then some bs else none
  | none => none

/-! ### The codec itself (src/lib.rs) -/

namespace ValueM

/-- The 64-bit two's-complement pattern of an `i64`. -/
def i64Bits (i : Int) : Nat := (i % (2 ^ 64 : Int)).toNat

/-- Rust `Value::to_bytes` from src/lib.rs: `serialize(&(tag, payload), Infinite)`.
Serialization of these payload types never fails, so the `Result` is always
`Ok`. -/
def to_bytes : ValueM → Except DataErrorM Bytes
  | .Bool b => .ok [TypeM.Bool.to_tag, if b then 1 else 0]
  | .U64 n => .ok (TypeM.U64.to_tag :: natToLe 8 n)
  | .I64 i => .ok (TypeM.I64.to_tag :: natToLe 8 (i64Bits i))
  | .F64 bits => .ok (TypeM.F64.to_tag :: natToLe 8 bits)
  | .Instant i => .ok (TypeM.Instant.to_tag :: natToLe 8 (i64Bits i))
  | .Uuid bs => .ok (TypeM.Uuid.to_tag :: bs)
  | .Str bs => .ok (TypeM.Str.to_tag :: natToLe 8 bs.length ++ bs)
  | .Json bs => .ok (TypeM.Json.to_tag :: natToLe 8 bs.length ++ bs)

/-- Rust `fn uuid` from src/lib.rs: accept exactly 16 bytes. -/
def uuidOf (bs : Bytes) : Except DataErrorM ValueM :=
  if bs.length = 16 then .ok (.Uuid bs) else .error .InvalidUuid

/-- Rust `Value::from_type_and_data` from src/lib.rs. -/
def from_type_and_data (t : TypeM) (data : Bytes) : Except DataErrorM ValueM :=
  match t with
  | .Uuid =>
      match parseBytes data with
      | some bs => uuidOf bs
      | none => .error (.DecodingError .Uuid)
  | .Bool =>
      match parseBool data with
      | some b => .ok (.Bool b)
      | none => .error (.DecodingError .Bool)
  | .U64 =>
      match parseU64 data with
      | some n => .ok (.U64 n)
      | none => .error (.DecodingError .U64)
  | .I64 =>
      match parseI64 data with
      | some i => .ok (.I64 i)
      | none => .error (.DecodingError .I64)
  | .F64 =>
      match parseU64 data with
      | some n => .ok (.F64 n)
      | none => .error (.DecodingError .F64)
  | .Instant =>
      match parseI64 data with
      | some i => .ok (.Instant i)
      | none => .error (.DecodingError .Instant)
  | .Str =>
      match parseStr data with
      | some bs => .ok (.Str bs)
      | none => .error (.DecodingError .Str)
  | .Json =>
      match parseStr data with
      | some bs => .ok (.Json bs)
      | none => .error (.DecodingError .Json)

/-- Rust `Value::from_tagged_slice` from src/lib.rs. -/
def from_tagged_slice (slice : Bytes) : Except DataErrorM ValueM :=
  match slice with
  | [] => .error .Empty
  | tag :: data =>
      match TypeM.from_primitive tag with
      | none => .error (.UnknownType tag)
      | some t => from_type_and_data t data

/-- Rust `Value::expected_from_tagged_slice` from src/lib.rs, verbatim: note the
guard errors when the decoded tag EQUALS the expected one. -/
def expected_from_tagged_slice (expected : TypeM) (slice : Bytes) :
    Except DataErrorM ValueM :=
  match slice with
  | [] => .error .Empty
  | tag :: data =>
      match TypeM.from_primitive tag with
      | none => .error (.UnknownType tag)
      | some t =>
          if t = expected then .error (.UnexpectedType expected t)
          else from_type_and_data t data

/-- A `Value` that Rust can actually construct: numeric payloads in range,
UUIDs of exactly 16 bytes, strings valid UTF-8, all bytes below 256.  The
`2 ^ 64` length bound on strings is the `usize` bound. -/
def legal : ValueM → Prop
  | .Bool _ => True
  | .U64 n => n < 2 ^ 64
  | .I64 i => -(2 ^ 63) ≤ i ∧ i < 2 ^ 63
  | .F64 bits => bits < 2 ^ 64
  | .Instant i => -(2 ^ 63) ≤ i ∧ i < 2 ^ 63
  | .Uuid bs => bs.length = 16 ∧ bytesWF bs
  | .Str bs => utf8Valid bs ∧ bs.length < 2 ^ 64
  | .Json bs => utf8Valid bs ∧ bs.length < 2 ^ 64

instance (v : ValueM) : Decidable (legal v) := by
  cases v <;> simp only [legal] <;> infer_instance

end ValueM

/-- Does the value use the `Uuid` constructor? -/
def valueIsUuid : ValueM → Bool
  | .Uuid _ => true
  | _ => false

instance {ε α : Type} [DecidableEq ε] [DecidableEq α] : DecidableEq (Except ε α) :=
  fun a b =>
    match a, b with
    | .ok a, .ok b => decidable_of_iff (a = b) (by simp)
    | .error a, .error b => decidable_of_iff (a = b) (by simp)
    | .ok _, .error _ => isFalse (by simp)
    | .error _, .ok _ => isFalse (by simp)


/-! ## The safe-mode engine (src/backend/impl_safe) -/

/-- Rust `DatabaseFlagsImpl` (bitflags).  Modelled from the spec: the flags file
of the safe-mode backend is not under src/; spec §3 lists `DUP_SORT`,
`DUP_FIXED` and `INTEGER_KEY` as the recognized database flags. -/
structure DatabaseFlagsImpl where
  dup_sort : Bool
  dup_fixed : Bool
  integer_key : Bool
  deriving DecidableEq, Repr

/-- Rust `WriteFlagsImpl` (bitflags).  Modelled from the spec: the flags file of
the safe-mode backend is not under src/; spec §4.3 lists the recognized
write flags.  `RwTransactionImpl::put` ignores its flags argument. -/
structure WriteFlagsImpl where
  no_overwrite : Bool
  no_dup_data : Bool
  append : Bool
  append_dup : Bool
  deriving DecidableEq, Repr

/-- Association-list model of a map (`HashMap` / the id arena).  Looks up
the first entry with the given key. -/
def alookup {κ α : Type} [DecidableEq κ] : List (κ × α) → κ → Option α
  | [], _ => none
  | (k, v) :: rest, key => if k = key then some v else alookup rest key

/-- Replace the value stored at `key` (no-op when the key is absent):
in-place mutation through an occupied map entry. -/
def aupdate {κ α : Type} [DecidableEq κ] : List (κ × α) → κ → α → List (κ × α)
  | [], _, _ => []
  | (k, v) :: rest, key, a =>
      if k = key then (key, a) :: rest else (k, v) :: aupdate rest key a

/-- Byte-string ordering used by `BTreeSet<Box<[u8]>>`: lexicographic. -/
def bytesLt : Bytes → Bytes → Bool
  | [], [] => false
  | [], _ :: _ => true
  | _ :: _, [] => false
  | a :: as, b :: bs => if a < b then true else if b < a then false else bytesLt as bs

/-- A `BTreeSet<Box<[u8]>>`: kept as a strictly ascending list. -/
abbrev ValueSet := List Bytes

/-- Rust `BTreeSet::insert`: ordered insertion, no duplicates. -/
def setInsert (v : Bytes) : ValueSet → ValueSet
  | [] => [v]
  | w :: ws =>
      if bytesLt v w then v :: w :: ws
      else if v = w then w :: ws
      else w :: setInsert v ws

/-- Rust `BTreeSet::remove`: drop the element equal to `v` (sets hold no
duplicates, so this is a filter). -/
def setRemove (v : Bytes) (s : ValueSet) : ValueSet := s.filter (· ≠ v)

/-- Rust `Snapshot` from impl_safe/database.rs: the database flags plus the map
from key bytes to the ordered set of value bytes. -/
structure Snapshot where
  flags : DatabaseFlagsImpl
  map : List (Bytes × ValueSet)
  deriving DecidableEq, Repr

namespace Snapshot

/-- Rust `Snapshot::new`: given flags, an empty map. -/
def new (flags : DatabaseFlagsImpl) : Snapshot := ⟨flags, []⟩

/-- Rust `Snapshot::get`: `map.get(key).and_then(|v| v.iter().next())` — the
first (smallest) value of the key's set, if any. -/
def get (s : Snapshot) (key : Bytes) : Option Bytes :=
  (alookup s.map key).bind List.head?

/-- Rust `Snapshot::put_one` on the underlying map: clear the key's set and
insert the single value (creating the entry when absent). -/
def put_one_map (key value : Bytes) : List (Bytes × ValueSet) → List (Bytes × ValueSet)
  | [] => [(key, setInsert value [])]
  | (k, vs) :: rest =>
      if k = key then (key, setInsert value []) :: rest
      else (k, vs) :: put_one_map key value rest

/-- Rust `Snapshot::put_one`. -/
def put_one (s : Snapshot) (key value : Bytes) : Snapshot :=
  { s with map := put_one_map key value s.map }

/-- Rust `Snapshot::put_dup` on the underlying map: insert the value into the
key's set (creating the entry when absent). -/
def put_dup_map (key value : Bytes) : List (Bytes × ValueSet) → List (Bytes × ValueSet)
  | [] => [(key, setInsert value [])]
  | (k, vs) :: rest =>
      if k = key then (key, setInsert value vs) :: rest
      else (k, vs) :: put_dup_map key value rest

/-- Rust `Snapshot::put_dup`. -/
def put_dup (s : Snapshot) (key value : Bytes) : Snapshot :=
  { s with map := put_dup_map key value s.map }

/-- Rust `Snapshot::del_exact` on the underlying map: on a vacant entry report
failure; on an occupied entry remove the value from the set, reporting
success exactly when it was present. -/
def del_exact_map (key value : Bytes) :
    List (Bytes × ValueSet) → List (Bytes × ValueSet) × Option Unit
  | [] => ([], none)
  | (k, vs) :: rest =>
      if k = key then
        ((key, setRemove value vs) :: rest, if value ∈ vs then some () else none)
      else
        let pr := del_exact_map key value rest
        ((k, vs) :: pr.1, pr.2)

/-- Rust `Snapshot::del_all` on the underlying map: on a vacant entry report
failure; on an occupied entry clear the set, reporting success exactly when
it was non-empty. -/
def del_all_map (key : Bytes) :
    List (Bytes × ValueSet) → List (Bytes × ValueSet) × Option Unit
  | [] => ([], none)
  | (k, vs) :: rest =>
      if k = key then ((key, []) :: rest, if vs.isEmpty then none else some ())
      else
        let pr := del_all_map key rest
        ((k, vs) :: pr.1, pr.2)

/-- Rust `Snapshot::clear`. -/
def clear (s : Snapshot) : Snapshot := { s with map := [] }

/-- Rust `Snapshot::iter`: every (key, value) pair, values within a key in set
order. -/
def iter (s : Snapshot) : List (Bytes × Bytes) :=
  s.map.flatMap fun p => p.2.map fun v => (p.1, v)

end Snapshot

/-- Rust `EnvironmentImpl` from impl_safe/environment.rs: the database arena
(dense ids), the name map, and the two live-transaction witness counts
(`Arc::strong_count(&self.ro_txns) - 1` and likewise for writers). -/
structure EnvState where
  arena : List (Nat × Snapshot)
  dbs : List (Option Bytes × Nat)
  roTxns : Nat
  rwTxns : Nat
  deriving DecidableEq, Repr

/-- Rust `ErrorImpl` from impl_safe/error.rs (payloads of `IoError` and
`BincodeError` dropped). -/
inductive ErrorImplM where
  | KeyValuePairNotFound
  | DbPoisonError
  | DbsFull
  | DbsIllegalOpen
  | DbNotFoundError
  | DbIsForeignError
  | IoError
  | BincodeError
  deriving DecidableEq, Repr

/-- Rust `EnvironmentImpl::open_db`: refuse while any read transaction is live,
then look the name up. -/
def openDb (env : EnvState) (name : Option Bytes) : Except ErrorImplM Nat :=
  if 0 < env.roTxns then .error .DbsIllegalOpen
  else
    match alookup env.dbs name with
    | some id => .ok id
    | none => .error .DbNotFoundError

/-- Rust `EnvironmentImpl::create_db`: `dbs.entry(key).or_insert_with(...)` —
return the existing id if the name is taken (the flags argument is then
unused), otherwise allocate a fresh database with the given flags.  There
is no live-reader check here. -/
def createDb (env : EnvState) (name : Option Bytes) (flags : DatabaseFlagsImpl) :
    Except ErrorImplM (EnvState × Nat) :=
  match alookup env.dbs name with
  | some id => .ok (env, id)
  | none =>
      let id := env.arena.length
      .ok ({ env with
              arena := env.arena ++ [(id, Snapshot.new flags)],
              dbs := env.dbs ++ [(name, id)] }, id)

/-- Rust `RoTransactionImpl`: the fleet of snapshots captured at begin. -/
structure RoTxn where
  snapshots : List (Nat × Snapshot)
  deriving DecidableEq, Repr

/-- Rust `RwTransactionImpl`: the fleet of snapshots captured at begin. -/
structure RwTxn where
  snapshots : List (Nat × Snapshot)
  deriving DecidableEq, Repr

/-- Rust `RoTransactionImpl::new`: snapshot every database of the environment. -/
def roTxnNew (env : EnvState) : RoTxn := ⟨env.arena⟩

/-- Rust `RwTransactionImpl::new`: snapshot every database of the environment. -/
def rwTxnNew (env : EnvState) : RwTxn := ⟨env.arena⟩

/-- Rust `EnvironmentImpl::begin_ro_txn`: hand out the snapshot fleet and bump
the live-reader witness count. -/
def beginRo (env : EnvState) : RoTxn × EnvState :=
  (roTxnNew env, { env with roTxns := env.roTxns + 1 })

/-- Rust `RoTransactionImpl::get`: read from the captured snapshot. -/
def roGet (txn : RoTxn) (db : Nat) (key : Bytes) : Except ErrorImplM Bytes :=
  match alookup txn.snapshots db with
  | none => .error .DbIsForeignError
  | some snap =>
      match snap.get key with
      | some v => .ok v
      | none => .error .KeyValuePairNotFound

/-- Rust `RwTransactionImpl::get`. -/
def rwGet (txn : RwTxn) (db : Nat) (key : Bytes) : Except ErrorImplM Bytes :=
  match alookup txn.snapshots db with
  | none => .error .DbIsForeignError
  | some snap =>
      match snap.get key with
      | some v => .ok v
      | none => .error .KeyValuePairNotFound

/-- Rust `RwTransactionImpl::put`: dispatch on the database's DUP_SORT flag;
the write-flags argument is ignored (named `_flags` in the source). -/
def rwPut (txn : RwTxn) (db : Nat) (key value : Bytes) (_flags : WriteFlagsImpl) :
    Except ErrorImplM RwTxn :=
  match alookup txn.snapshots db with
  | none => .error .DbIsForeignError
  | some snap =>
      let snap' :=
        if snap.flags.dup_sort then snap.put_dup key value else snap.put_one key value
      .ok ⟨aupdate txn.snapshots db snap'⟩

/-- Rust `RwTransactionImpl::del`: `del_exact` for an explicit value on a
DUP_SORT database, `del_all` otherwise; report `KeyValuePairNotFound` when
nothing was deleted.  The transaction's (then unchanged) snapshot is kept
in either case, mirroring the `&mut self` mutation. -/
def rwDel (txn : RwTxn) (db : Nat) (key : Bytes) (value : Option Bytes) :
    RwTxn × Except ErrorImplM Unit :=
  match alookup txn.snapshots db with
  | none => (txn, .error .DbIsForeignError)
  | some snap =>
      let pr :=
        match value with
        | some v =>
            if snap.flags.dup_sort then Snapshot.del_exact_map key v snap.map
            else Snapshot.del_all_map key snap.map
        | none => Snapshot.del_all_map key snap.map
      let txn' : RwTxn := ⟨aupdate txn.snapshots db { snap with map := pr.1 }⟩
      match pr.2 with
      | some _ => (txn', .ok ())
      | none => (txn', .error .KeyValuePairNotFound)

/-- Rust `RwTransactionImpl::commit`: replace every database's snapshot with the
transaction's local one (then flush to disk — persistence not modelled). -/
def rwCommit (txn : RwTxn) (env : EnvState) : EnvState :=
  { env with
      arena := txn.snapshots.foldl (fun a p => aupdate a p.1 p.2) env.arena }

/-- The value-set a snapshot holds for a key (empty when absent). -/
def valueSetOf (s : Snapshot) (key : Bytes) : ValueSet :=
  (alookup s.map key).getD []

/-! ## The environment manager (src/manager.rs) -/

/-- A filesystem path, as its raw bytes. -/
abbrev PathM := List Nat

/-- Rust `Rkv` from src/env.rs: the wrapper the manager hands out.  It records
the path; its `lmdb::Environment` field is the external engine handle
(out of scope per the spec, §1) and carries no state the manager reads. -/
structure RkvM where
  path : PathM
  deriving DecidableEq, Repr

/-- Rust `StoreError`.  Modelled from the spec: the error module is not under
src/; spec §4.2 lists the unified error kinds (only those reachable from
the manager are kept; payloads dropped). -/
inductive StoreErrorM where
  | DirectoryDoesNotExist
  | IoError
  | DataError
  | LmdbError
  deriving DecidableEq, Repr

/-- Rust `Arc<RwLock<Rkv>>`: the shared handle.  `id` models the allocation
identity of the `Arc`, so `Arc::ptr_eq` is equality of `id`. -/
structure Handle where
  id : Nat
  rkv : RkvM
  deriving DecidableEq, Repr

/-- Rust `Manager`: the map from canonical path to the shared handle, plus the
next allocation identity. -/
structure Manager where
  stores : List (PathM × Handle)
  nextId : Nat
  deriving DecidableEq, Repr

/-- Rust `Manager::get`: canonicalize, then look up.  `canon` is the (external)
`Path::canonicalize`; the manager's behaviour is uniform in it. -/
def managerGet (canon : PathM → PathM) (m : Manager) (path : PathM) : Option Handle :=
  alookup m.stores (canon path)

/-- Rust `Manager::get_or_create`: canonicalize; on an occupied entry return the
stored handle (the constructor is not invoked); on a vacant entry run the
constructor, allocate a fresh shared handle, insert and return it.
Constructor errors are surfaced unchanged. -/
def getOrCreate (canon : PathM → PathM) (m : Manager) (path : PathM)
    (f : PathM → Except StoreErrorM RkvM) : Except StoreErrorM (Handle × Manager) :=
  match alookup m.stores (canon path) with
  | some h => .ok (h, m)
  | none =>
      match f (canon path) with
      | .error e => .error e
      | .ok rkv =>
          let h : Handle := ⟨m.nextId, rkv⟩
          .ok (h, ⟨m.stores ++ [(canon path, h)], m.nextId + 1⟩)

/-! ## The migrator (src/migrator.rs) -/

/-- Rust `MigrateError`.  Modelled from the spec: the error module is not under
src/; the migrator itself uses `SourceEmpty` and `DestinationNotEmpty`. -/
inductive MigrateErrorM where
  | SourceEmpty
  | DestinationNotEmpty
  deriving DecidableEq, Repr

/-- An environment as the migrator sees it: `get_dbs` yields the database
names; each database is a single-valued key/value store (the migrator's
doc comment limits it to `SingleStore`s). -/
structure MigEnv where
  dbs : List (Option Bytes × List (Bytes × Bytes))
  deriving DecidableEq, Repr

/-- A single-store `put` of decoded pairs: replace the key's value or
append the new pair. -/
def putSingle (d : List (Bytes × Bytes)) (k v : Bytes) : List (Bytes × Bytes) :=
  match d with
  | [] => [(k, v)]
  | (k0, v0) :: rest => if k0 = k then (k, v) :: rest else (k0, v0) :: putSingle rest k v

/-- The migrator's inner loop: `put` every pair yielded by the source
iterator into the destination store. -/
def copyPairs (pairs : List (Bytes × Bytes)) (d : List (Bytes × Bytes)) :
    List (Bytes × Bytes) :=
  pairs.foldl (fun acc p => putSingle acc p.1 p.2) d

/-- Rust `fn_migrator` from src/migrator.rs: fail `SourceEmpty` when the source
has no databases, then fail `DestinationNotEmpty` when the destination has
any; otherwise, for each source database in order, create it in the
destination, copy every pair, and commit. -/
def migrate (src dst : MigEnv) : Except MigrateErrorM MigEnv :=
  if src.dbs.isEmpty then .error .SourceEmpty
  else if dst.dbs.isEmpty = false then .error .DestinationNotEmpty
  else
    .ok (src.dbs.foldl
      (fun acc p => ⟨acc.dbs ++ [(p.1, copyPairs p.2 [])]⟩) dst)

theorem natToLe_length (w n : Nat) : (natToLe w n).length = w := by
  induction w generalizing n with
  | zero => rfl
  | succ w ih => simp [natToLe, ih]

theorem leToNat_natToLe (w n : Nat) : leToNat (natToLe w n) = n % 256 ^ w := by
  induction w generalizing n with
  | zero => simp [natToLe, leToNat, Nat.mod_one]
  | succ w ih =>
      simp only [natToLe, leToNat, ih]
      rw [pow_succ', Nat.mod_mul]

theorem natToLe_bytesWF (w n : Nat) : bytesWF (natToLe w n) := by
  induction w generalizing n with
  | zero => intro b hb; simp [natToLe] at hb
  | succ w ih =>
      intro b hb
      simp only [natToLe, List.mem_cons] at hb
      rcases hb with h | h
      · omega
      · exact ih _ b h

/-! ### Codec round-trip lemmas -/

theorem parseU64_encode (n : Nat) : parseU64 (natToLe 8 n) = some (n % 2 ^ 64) := by
  unfold parseU64
  rw [List.take_of_length_le (by rw [natToLe_length])]
  rw [leToNat_natToLe]
  norm_num [natToLe_length]

theorem parseBytes_encode (bs tail : Bytes) (h : bs.length < 2 ^ 64) :
    parseBytes (natToLe 8 bs.length ++ bs ++ tail) = some bs := by
  unfold parseBytes
  rw [List.append_assoc, List.take_left' (natToLe_length 8 _),
    List.drop_left' (natToLe_length 8 _), leToNat_natToLe]
  have h256 : (256 : Nat) ^ 8 = 2 ^ 64 := by norm_num
  rw [h256, Nat.mod_eq_of_lt h]
  have hle : bs.length ≤ (bs ++ tail).length := by simp
  rw [if_pos hle, List.take_left]
  simp [natToLe_length]

theorem toI64_i64Bits (i : Int) (h1 : -(2 ^ 63) ≤ i) (h2 : i < 2 ^ 63) :
    toI64 (ValueM.i64Bits i) = i := by
  unfold toI64 ValueM.i64Bits
  have h0 : (0 : Int) ≤ i % 2 ^ 64 := Int.emod_nonneg i (by norm_num)
  have hlt : i % 2 ^ 64 < 2 ^ 64 := Int.emod_lt_of_pos i (by norm_num)
  have hn : (((i % 2 ^ 64).toNat : Int)) = i % 2 ^ 64 := Int.toNat_of_nonneg h0
  split <;> omega

theorem i64Bits_lt (i : Int) : ValueM.i64Bits i < 2 ^ 64 := by
  unfold ValueM.i64Bits
  have hlt : i % 2 ^ 64 < 2 ^ 64 := Int.emod_lt_of_pos i (by norm_num)
  omega

theorem parseI64_encode (i : Int) (h1 : -(2 ^ 63) ≤ i) (h2 : i < 2 ^ 63) :
    parseI64 (natToLe 8 (ValueM.i64Bits i)) = some i := by
  unfold parseI64
  rw [parseU64_encode, Nat.mod_eq_of_lt (i64Bits_lt i)]
  simp [toI64_i64Bits i h1 h2]

theorem parseStr_encode (bs : Bytes) (hv : utf8Valid bs) (hl : bs.length < 2 ^ 64) :
    parseStr (natToLe 8 bs.length ++ bs) = some bs := by
  have h := parseBytes_encode bs [] hl
  rw [List.append_nil] at h
  unfold parseStr
  rw [h]
  simp [hv]

/-- Claim C1, amended.  For every legal value except the `Uuid` variant,
`from_tagged_slice (to_bytes v) = Ok v`; for every legal `Uuid` value the
decode of the encoding fails.  (`to_bytes` writes the 16 UUID bytes raw,
while decoding reads a `u64` length-prefixed slice, so the two never
agree.) -/
theorem c1_codec_roundtrip (v : ValueM) (h : v.legal) :
    (valueIsUuid v = false →
      v.to_bytes.bind ValueM.from_tagged_slice = .ok v) ∧
    (valueIsUuid v = true →
      ∃ e, v.to_bytes.bind ValueM.from_tagged_slice = .error e) := by
  cases v with
  | Bool b =>
      refine ⟨fun _ => ?_, fun hu => by simp [valueIsUuid] at hu⟩
      cases b <;> decide
  | U64 n =>
      refine ⟨fun _ => ?_, fun hu => by simp [valueIsUuid] at hu⟩
      show ValueM.from_type_and_data .U64 (natToLe 8 n) = .ok (.U64 n)
      unfold ValueM.from_type_and_data
      rw [parseU64_encode, Nat.mod_eq_of_lt h]
  | I64 i =>
      refine ⟨fun _ => ?_, fun hu => by simp [valueIsUuid] at hu⟩
      show ValueM.from_type_and_data .I64 (natToLe 8 (ValueM.i64Bits i)) = .ok (.I64 i)
      unfold ValueM.from_type_and_data
      rw [parseI64_encode i h.1 h.2]
  | F64 bits =>
      refine ⟨fun _ => ?_, fun hu => by simp [valueIsUuid] at hu⟩
      show ValueM.from_type_and_data .F64 (natToLe 8 bits) = .ok (.F64 bits)
      unfold ValueM.from_type_and_data
      rw [parseU64_encode, Nat.mod_eq_of_lt h]
  | Instant i =>
      refine ⟨fun _ => ?_, fun hu => by simp [valueIsUuid] at hu⟩
      show ValueM.from_type_and_data .Instant (natToLe 8 (ValueM.i64Bits i)) = .ok (.Instant i)
      unfold ValueM.from_type_and_data
      rw [parseI64_encode i h.1 h.2]
  | Uuid bs =>
      refine ⟨fun hu => by simp [valueIsUuid] at hu, fun _ => ?_⟩
      show ∃ e, ValueM.from_type_and_data .Uuid bs = .error e
      have hlen : bs.length = 16 := h.1
      unfold ValueM.from_type_and_data parseBytes
      rw [if_pos (by omega)]
      by_cases hc : leToNat (bs.take 8) ≤ (bs.drop 8).length
      · rw [if_pos hc]
        have hrest : (bs.drop 8).length = 8 := by simp [hlen]
        have htk : ((bs.drop 8).take (leToNat (bs.take 8))).length ≤ 8 := by
          rw [List.length_take, hrest]; omega
        show ∃ e, ValueM.uuidOf _ = .error e
        unfold ValueM.uuidOf
        rw [if_neg (by omega)]
        exact ⟨_, rfl⟩
      · rw [if_neg hc]
        exact ⟨_, rfl⟩
  | Str bs =>
      refine ⟨fun _ => ?_, fun hu => by simp [valueIsUuid] at hu⟩
      show ValueM.from_type_and_data .Str (natToLe 8 bs.length ++ bs) = .ok (.Str bs)
      unfold ValueM.from_type_and_data
      rw [parseStr_encode bs h.1 h.2]
  | Json bs =>
      refine ⟨fun _ => ?_, fun hu => by simp [valueIsUuid] at hu⟩
      show ValueM.from_type_and_data .Json (natToLe 8 bs.length ++ bs) = .ok (.Json bs)
      unfold ValueM.from_type_and_data
      rw [parseStr_encode bs h.1 h.2]

/-- Claim C1, counterexample to the claim as stated: the all-zero UUID is a
legal value whose encoding does not decode back to itself (decoding fails
with `InvalidUuid`). -/
theorem c1_codec_roundtrip_counterexample :
    ValueM.legal (ValueM.Uuid (List.replicate 16 0)) ∧
    (ValueM.Uuid (List.replicate 16 0)).to_bytes.bind ValueM.from_tagged_slice =
      .error .InvalidUuid ∧
    (ValueM.Uuid (List.replicate 16 0)).to_bytes.bind ValueM.from_tagged_slice ≠
      .ok (ValueM.Uuid (List.replicate 16 0)) := by decide

/-- Claim C1, witness: the amended round trip at the concrete string "hi". -/
theorem c1_codec_roundtrip_witness :
    (ValueM.Str [104, 105]).to_bytes.bind ValueM.from_tagged_slice =
      .ok (ValueM.Str [104, 105]) :=
  (c1_codec_roundtrip (ValueM.Str [104, 105]) (by decide)).1 rfl

/-- Claim C2: `expected_from_tagged_slice` has the guard inverted.  On the
slice `[1, 1]` (tag `Bool`, payload `true`): expecting `Bool` — the tags
match — it returns `UnexpectedType` instead of decoding, and expecting
`U64` — the tags differ — it decodes `Bool(true)` instead of failing with
`UnexpectedType`. -/
theorem c2_expected_from_tagged_slice_inverted :
    ValueM.expected_from_tagged_slice .Bool [1, 1] =
      .error (.UnexpectedType .Bool .Bool) ∧
    ValueM.expected_from_tagged_slice .U64 [1, 1] = .ok (.Bool true) := by
  decide

/-! ### Association-list and value-set lemmas -/

theorem alookup_aupdate_self {κ α : Type} [DecidableEq κ] (m : List (κ × α))
    (k : κ) (a x : α) (h : alookup m k = some x) :
    alookup (aupdate m k a) k = some a := by
  induction m with
  | nil => simp [alookup] at h
  | cons p rest ih =>
      obtain ⟨k0, v0⟩ := p
      by_cases hk : k0 = k
      · simp [alookup, aupdate, hk]
      · simp only [alookup, aupdate, if_neg hk] at h ⊢
        exact ih h

theorem alookup_aupdate_ne {κ α : Type} [DecidableEq κ] (m : List (κ × α))
    (k k' : κ) (a : α) (h : k' ≠ k) :
    alookup (aupdate m k a) k' = alookup m k' := by
  induction m with
  | nil => rfl
  | cons p rest ih =>
      obtain ⟨k0, v0⟩ := p
      by_cases hk : k0 = k
      · subst hk
        simp [alookup, aupdate, Ne.symm h]
      · simp only [aupdate, if_neg hk, alookup]
        by_cases hk' : k0 = k' <;> simp [hk', ih]

theorem aupdate_of_lookup_eq {κ α : Type} [DecidableEq κ] (m : List (κ × α))
    (k : κ) (x : α) (h : alookup m k = some x) : aupdate m k x = m := by
  induction m with
  | nil => rfl
  | cons p rest ih =>
      obtain ⟨k0, v0⟩ := p
      by_cases hk : k0 = k
      · subst hk
        have hx : v0 = x := by simpa [alookup] using h
        subst hx
        simp [aupdate]
      · simp only [alookup, if_neg hk] at h
        simp [aupdate, if_neg hk, ih h]

theorem alookup_eq_none_iff {κ α : Type} [DecidableEq κ] (m : List (κ × α))
    (k : κ) : alookup m k = none ↔ k ∉ m.map Prod.fst := by
  induction m with
  | nil => simp [alookup]
  | cons p rest ih =>
      obtain ⟨k0, v0⟩ := p
      by_cases hk : k0 = k
      · simp [alookup, hk]
      · simp only [alookup, if_neg hk, ih, List.map_cons, List.mem_cons, not_or]
        exact ⟨fun h2 => ⟨fun he => hk he.symm, h2⟩, And.right⟩

theorem foldl_aupdate_not_mem {κ α : Type} [DecidableEq κ]
    (l : List (κ × α)) (base : List (κ × α)) (key : κ)
    (h : key ∉ l.map Prod.fst) :
    alookup (l.foldl (fun a p => aupdate a p.1 p.2) base) key = alookup base key := by
  induction l generalizing base with
  | nil => rfl
  | cons p rest ih =>
      simp only [List.map_cons, List.mem_cons, not_or] at h
      simp only [List.foldl_cons]
      rw [ih _ h.2, alookup_aupdate_ne _ _ _ _ h.1]

theorem alookup_foldl_aupdate {κ α : Type} [DecidableEq κ]
    (l : List (κ × α)) (base : List (κ × α)) (key : κ) (v : α)
    (hnd : (l.map Prod.fst).Nodup) (hv : alookup l key = some v)
    (hbase : ∃ x, alookup base key = some x) :
    alookup (l.foldl (fun a p => aupdate a p.1 p.2) base) key = some v := by
  induction l generalizing base with
  | nil => simp [alookup] at hv
  | cons p rest ih =>
      obtain ⟨k0, v0⟩ := p
      simp only [List.map_cons, List.nodup_cons] at hnd
      simp only [List.foldl_cons]
      by_cases hk : k0 = key
      · subst hk
        have hv0 : v0 = v := by simpa [alookup] using hv
        subst hv0
        obtain ⟨x, hx⟩ := hbase
        rw [foldl_aupdate_not_mem _ _ _ (by simpa using hnd.1)]
        exact alookup_aupdate_self _ _ _ _ hx
      · simp only [alookup, if_neg hk] at hv
        obtain ⟨x, hx⟩ := hbase
        exact ih _ hnd.2 hv ⟨x, by rwa [alookup_aupdate_ne _ _ _ _ (fun he => hk he.symm)]⟩

theorem mem_setInsert_self (v : Bytes) (s : ValueSet) : v ∈ setInsert v s := by
  induction s with
  | nil => simp [setInsert]
  | cons w ws ih =>
      simp only [setInsert]
      by_cases h1 : bytesLt v w = true
      · rw [if_pos h1]
        exact List.mem_cons_self _ _
      · rw [if_neg h1]
        by_cases h2 : v = w
        · rw [if_pos h2, h2]
          exact List.mem_cons_self _ _
        · rw [if_neg h2]
          exact List.mem_cons_of_mem _ ih

theorem mem_setInsert_of_mem (v w : Bytes) (s : ValueSet) (h : w ∈ s) :
    w ∈ setInsert v s := by
  induction s with
  | nil => simp at h
  | cons u us ih =>
      simp only [setInsert]
      rcases List.mem_cons.mp h with h | h
      · by_cases h1 : bytesLt v u = true
        · rw [if_pos h1]
          exact List.mem_cons_of_mem _ (h ▸ List.mem_cons_self u us)
        · by_cases h2 : v = u
          · rw [if_neg h1, if_pos h2]
            exact h ▸ List.mem_cons_self u us
          · rw [if_neg h1, if_neg h2]
            exact h ▸ List.mem_cons_self u (setInsert v us)
      · by_cases h1 : bytesLt v u = true
        · rw [if_pos h1]
          exact List.mem_cons_of_mem _ (List.mem_cons_of_mem _ h)
        · by_cases h2 : v = u
          · rw [if_neg h1, if_pos h2]
            exact List.mem_cons_of_mem _ h
          · rw [if_neg h1, if_neg h2]
            exact List.mem_cons_of_mem _ (ih h)

theorem mem_setRemove_iff (v w : Bytes) (s : ValueSet) :
    w ∈ setRemove v s ↔ w ∈ s ∧ w ≠ v := by
  simp [setRemove, List.mem_filter]

theorem setRemove_of_not_mem (v : Bytes) (s : ValueSet) (h : v ∉ s) :
    setRemove v s = s := by
  apply List.filter_eq_self.mpr
  intro a ha
  simp only [ne_eq, decide_eq_true_eq]
  exact fun he => h (he ▸ ha)

theorem alookup_put_one_map (m : List (Bytes × ValueSet)) (key value : Bytes) :
    alookup (Snapshot.put_one_map key value m) key = some [value] := by
  induction m with
  | nil => simp [Snapshot.put_one_map, alookup, setInsert]
  | cons p rest ih =>
      obtain ⟨k0, vs⟩ := p
      by_cases hk : k0 = key
      · simp [Snapshot.put_one_map, hk, alookup, setInsert]
      · simp [Snapshot.put_one_map, hk, alookup, ih]

theorem alookup_put_dup_map (m : List (Bytes × ValueSet)) (key value : Bytes) :
    alookup (Snapshot.put_dup_map key value m) key =
      some (setInsert value ((alookup m key).getD [])) := by
  induction m with
  | nil => simp [Snapshot.put_dup_map, alookup]
  | cons p rest ih =>
      obtain ⟨k0, vs⟩ := p
      by_cases hk : k0 = key
      · simp [Snapshot.put_dup_map, hk, alookup]
      · simp [Snapshot.put_dup_map, hk, alookup, ih]

theorem del_all_map_fst (m : List (Bytes × ValueSet)) (key : Bytes) :
    (Snapshot.del_all_map key m).1 = aupdate m key [] := by
  induction m with
  | nil => rfl
  | cons p rest ih =>
      obtain ⟨k0, vs⟩ := p
      by_cases hk : k0 = key
      · simp [Snapshot.del_all_map, aupdate, hk]
      · simp [Snapshot.del_all_map, aupdate, hk, ih]

theorem del_all_map_snd (m : List (Bytes × ValueSet)) (key : Bytes) :
    (Snapshot.del_all_map key m).2 =
      match alookup m key with
      | some vs => if vs.isEmpty then none else some ()
      | none => none := by
  induction m with
  | nil => rfl
  | cons p rest ih =>
      obtain ⟨k0, vs⟩ := p
      by_cases hk : k0 = key
      · simp [Snapshot.del_all_map, alookup, hk]
      · simp [Snapshot.del_all_map, alookup, hk, ih]

theorem del_exact_map_vacant (m : List (Bytes × ValueSet)) (key v : Bytes)
    (h : alookup m key = none) : Snapshot.del_exact_map key v m = (m, none) := by
  induction m with
  | nil => rfl
  | cons p rest ih =>
      obtain ⟨k0, vs⟩ := p
      by_cases hk : k0 = key
      · simp [alookup, hk] at h
      · simp only [alookup, if_neg hk] at h
        simp [Snapshot.del_exact_map, hk, ih h]

theorem del_exact_map_occupied (m : List (Bytes × ValueSet)) (key v : Bytes)
    (vs : ValueSet) (h : alookup m key = some vs) :
    (Snapshot.del_exact_map key v m).2 = (if v ∈ vs then some () else none) ∧
    alookup (Snapshot.del_exact_map key v m).1 key = some (setRemove v vs) ∧
    (∀ k', k' ≠ key → alookup (Snapshot.del_exact_map key v m).1 k' = alookup m k') ∧
    (v ∉ vs → (Snapshot.del_exact_map key v m).1 = m) := by
  induction m with
  | nil => simp [alookup] at h
  | cons p rest ih =>
      obtain ⟨k0, vs0⟩ := p
      by_cases hk : k0 = key
      · subst hk
        have hvs : vs0 = vs := by simpa [alookup] using h
        subst hvs
        refine ⟨by simp [Snapshot.del_exact_map], by simp [Snapshot.del_exact_map, alookup],
          ?_, ?_⟩
        · intro k' hk'
          simp [Snapshot.del_exact_map, alookup, hk', Ne.symm hk']
        · intro hv
          simp [Snapshot.del_exact_map, setRemove_of_not_mem v vs0 hv]
      · simp only [alookup, if_neg hk] at h
        obtain ⟨ih1, ih2, ih3, ih4⟩ := ih h
        refine ⟨by simp [Snapshot.del_exact_map, hk, ih1], ?_, ?_, ?_⟩
        · simp only [Snapshot.del_exact_map, if_neg hk]
          simpa [alookup, hk] using ih2
        · intro k' hk'
          by_cases hk0 : k0 = k'
          · simp [Snapshot.del_exact_map, if_neg hk, alookup, hk0, hk']
          · simp only [Snapshot.del_exact_map, if_neg hk, alookup, if_neg hk0]
            simpa [alookup, hk0] using ih3 k' hk'
        · intro hv
          simp [Snapshot.del_exact_map, if_neg hk, ih4 hv]

theorem not_mem_pairs_of_not_key (m : List (Bytes × ValueSet)) (key v : Bytes)
    (h : key ∉ m.map Prod.fst) :
    (key, v) ∉ m.flatMap fun p => p.2.map fun w => (p.1, w) := by
  induction m with
  | nil => simp
  | cons p rest ih =>
      simp only [List.map_cons, List.mem_cons, not_or] at h
      simp only [List.flatMap_cons, List.mem_append, List.mem_map]
      rintro (⟨w, hw, he⟩ | hmem)
      · exact h.1 (congrArg Prod.fst he).symm
      · exact ih h.2 hmem

theorem not_mem_pairs_aupdate_nil (m : List (Bytes × ValueSet)) (key v : Bytes)
    (hnd : (m.map Prod.fst).Nodup) :
    (key, v) ∉ (aupdate m key []).flatMap fun p => p.2.map fun w => (p.1, w) := by
  induction m with
  | nil => simp [aupdate]
  | cons p rest ih =>
      obtain ⟨k0, vs0⟩ := p
      simp only [List.map_cons, List.nodup_cons] at hnd
      by_cases hk : k0 = key
      · subst hk
        have hup : aupdate ((k0, vs0) :: rest) k0 ([] : ValueSet) = (k0, []) :: rest := by
          simp [aupdate]
        rw [hup]
        simp only [List.flatMap_cons, List.map_nil, List.nil_append]
        exact not_mem_pairs_of_not_key rest k0 v hnd.1
      · have hup : aupdate ((k0, vs0) :: rest) key ([] : ValueSet) =
            (k0, vs0) :: aupdate rest key [] := by
          simp [aupdate, hk]
        rw [hup]
        simp only [List.flatMap_cons, List.mem_append, List.mem_map]
        rintro (⟨w, hw, he⟩ | hmem)
        · exact hk (congrArg Prod.fst he)
        · exact ih hnd.2 hmem

theorem aupdate_map_fst {κ α : Type} [DecidableEq κ] (m : List (κ × α))
    (k : κ) (a : α) : (aupdate m k a).map Prod.fst = m.map Prod.fst := by
  induction m with
  | nil => rfl
  | cons p rest ih =>
      obtain ⟨k0, v0⟩ := p
      by_cases hk : k0 = k
      · simp [aupdate, hk]
      · simp [aupdate, hk, ih]

theorem aupdate_absent {κ α : Type} [DecidableEq κ] (m : List (κ × α))
    (k : κ) (a : α) (h : alookup m k = none) : aupdate m k a = m := by
  induction m with
  | nil => rfl
  | cons p rest ih =>
      obtain ⟨k0, v0⟩ := p
      by_cases hk : k0 = k
      · simp [alookup, hk] at h
      · simp only [alookup, if_neg hk] at h
        simp [aupdate, if_neg hk, ih h]

theorem alookup_append_of_none {κ α : Type} [DecidableEq κ] (l : List (κ × α))
    (k : κ) (a : α) (h : alookup l k = none) :
    alookup (l ++ [(k, a)]) k = some a := by
  induction l with
  | nil => simp [alookup]
  | cons p rest ih =>
      obtain ⟨k0, v0⟩ := p
      by_cases hk : k0 = k
      · simp [alookup, hk] at h
      · simp only [alookup, if_neg hk] at h
        simp only [List.cons_append, alookup, if_neg hk]
        exact ih h

/-! ## Claims C3 and C4: safe-mode put and del -/

/-- Claim C3: in the safe-mode engine, `put` on a database without
DUP_SORT replaces the key's whole value-set with the single new value,
while `put` on a DUP_SORT database inserts the value into the key's
ordered set, leaving the existing values of that key in place. -/
theorem c3_put_replaces_or_inserts (txn : RwTxn) (db : Nat) (snap : Snapshot)
    (k v : Bytes) (fl : WriteFlagsImpl)
    (h : alookup txn.snapshots db = some snap) :
    ∃ txn', rwPut txn db k v fl = .ok txn' ∧
      ∃ snap', alookup txn'.snapshots db = some snap' ∧
        (snap.flags.dup_sort = false → alookup snap'.map k = some [v]) ∧
        (snap.flags.dup_sort = true →
          alookup snap'.map k = some (setInsert v (valueSetOf snap k)) ∧
          v ∈ valueSetOf snap' k ∧
          ∀ w ∈ valueSetOf snap k, w ∈ valueSetOf snap' k) := by
  by_cases hd : snap.flags.dup_sort = true
  · have hput : rwPut txn db k v fl = .ok ⟨aupdate txn.snapshots db (snap.put_dup k v)⟩ := by
      simp [rwPut, h, hd]
    refine ⟨_, hput, snap.put_dup k v, alookup_aupdate_self _ _ _ _ h, ?_, fun _ => ?_⟩
    · intro hfalse
      rw [hfalse] at hd
      exact Bool.noConfusion hd
    have hm : alookup (snap.put_dup k v).map k = some (setInsert v (valueSetOf snap k)) := by
      simpa [Snapshot.put_dup, valueSetOf] using alookup_put_dup_map snap.map k v
    refine ⟨hm, ?_, ?_⟩
    · show v ∈ (alookup (snap.put_dup k v).map k).getD []
      rw [hm]
      exact mem_setInsert_self v _
    · intro w hw
      show w ∈ (alookup (snap.put_dup k v).map k).getD []
      rw [hm]
      exact mem_setInsert_of_mem v w _ hw
  · have hd' : snap.flags.dup_sort = false := by simpa using hd
    have hput : rwPut txn db k v fl = .ok ⟨aupdate txn.snapshots db (snap.put_one k v)⟩ := by
      simp [rwPut, h, hd']
    refine ⟨_, hput, snap.put_one k v, alookup_aupdate_self _ _ _ _ h, fun _ => ?_, ?_⟩
    · simpa [Snapshot.put_one] using alookup_put_one_map snap.map k v
    · intro ht
      rw [ht] at hd'
      exact Bool.noConfusion hd'

/-- Claim C3, witness: put into a fresh single-value database, then put
into a DUP_SORT database. -/
theorem c3_put_witness :
    ∃ txn', rwPut ⟨[(0, ⟨⟨false, false, false⟩, []⟩)]⟩ 0 [0] [1] ⟨false, false, false, false⟩ =
        .ok txn' ∧
      ∃ snap', alookup txn'.snapshots 0 = some snap' ∧
        ((Snapshot.mk ⟨false, false, false⟩ []).flags.dup_sort = false →
          alookup snap'.map [0] = some [[1]]) ∧
        ((Snapshot.mk ⟨false, false, false⟩ []).flags.dup_sort = true →
          alookup snap'.map [0] =
            some (setInsert [1] (valueSetOf ⟨⟨false, false, false⟩, []⟩ [0])) ∧
          [1] ∈ valueSetOf snap' [0] ∧
          ∀ w ∈ valueSetOf ⟨⟨false, false, false⟩, []⟩ [0], w ∈ valueSetOf snap' [0]) :=
  c3_put_replaces_or_inserts ⟨[(0, ⟨⟨false, false, false⟩, []⟩)]⟩ 0
    ⟨⟨false, false, false⟩, []⟩ [0] [1] ⟨false, false, false, false⟩ (by decide)

/-- Claim C4: `del(key)` with no value empties the whole key out of the
transaction's snapshot (no value remains retrievable or enumerable for
it); `del(key, value)` on a DUP_SORT database removes exactly that value;
in either form, when the key (resp. pair) is absent the result is
`KeyValuePairNotFound` and the snapshot is unchanged. -/
theorem c4_del_semantics (txn : RwTxn) (db : Nat) (snap : Snapshot) (k : Bytes)
    (h : alookup txn.snapshots db = some snap)
    (hnd : (snap.map.map Prod.fst).Nodup) :
    (snap.get k ≠ none →
       ∃ txn', rwDel txn db k none = (txn', .ok ()) ∧
         ∃ snap', alookup txn'.snapshots db = some snap' ∧
           snap'.get k = none ∧
           (∀ v, (k, v) ∉ snap'.iter) ∧
           (∀ k2, k2 ≠ k → alookup snap'.map k2 = alookup snap.map k2)) ∧
    (snap.get k = none →
       rwDel txn db k none = (txn, .error .KeyValuePairNotFound)) ∧
    (snap.flags.dup_sort = true →
      ∀ v, (v ∈ valueSetOf snap k →
         ∃ txn', rwDel txn db k (some v) = (txn', .ok ()) ∧
           ∃ snap', alookup txn'.snapshots db = some snap' ∧
             alookup snap'.map k = some (setRemove v (valueSetOf snap k)) ∧
             (∀ w, w ∈ valueSetOf snap' k ↔ (w ∈ valueSetOf snap k ∧ w ≠ v)) ∧
             (∀ k2, k2 ≠ k → alookup snap'.map k2 = alookup snap.map k2)) ∧
        (v ∉ valueSetOf snap k →
         rwDel txn db k (some v) = (txn, .error .KeyValuePairNotFound))) := by
  refine ⟨?_, ?_, ?_⟩
  · intro hne
    obtain ⟨vs, hvs, hvs0⟩ : ∃ vs, alookup snap.map k = some vs ∧ vs ≠ [] := by
      unfold Snapshot.get at hne
      cases hal : alookup snap.map k with
      | none => rw [hal] at hne; simp at hne
      | some vs =>
          refine ⟨vs, rfl, ?_⟩
          intro h0
          rw [hal, h0] at hne
          simp at hne
    have hsnd : (Snapshot.del_all_map k snap.map).2 = some () := by
      rw [del_all_map_snd, hvs]
      cases vs with
      | nil => exact absurd rfl hvs0
      | cons a as => simp
    have hdel : rwDel txn db k none =
        (⟨aupdate txn.snapshots db
          { snap with map := (Snapshot.del_all_map k snap.map).1 }⟩, .ok ()) := by
      simp [rwDel, h, hsnd]
    refine ⟨_, hdel, { snap with map := (Snapshot.del_all_map k snap.map).1 },
      alookup_aupdate_self _ _ _ _ h, ?_, ?_, ?_⟩
    · show ((alookup (Snapshot.del_all_map k snap.map).1 k).bind List.head?) = none
      rw [del_all_map_fst, alookup_aupdate_self _ _ _ vs hvs]
      rfl
    · intro v
      show (k, v) ∉ (Snapshot.del_all_map k snap.map).1.flatMap _
      rw [del_all_map_fst]
      exact not_mem_pairs_aupdate_nil snap.map k v hnd
    · intro k2 hk2
      show alookup (Snapshot.del_all_map k snap.map).1 k2 = alookup snap.map k2
      rw [del_all_map_fst]
      exact alookup_aupdate_ne _ _ _ _ hk2
  · intro h0
    have hpair : Snapshot.del_all_map k snap.map = (snap.map, none) := by
      unfold Snapshot.get at h0
      cases hal : alookup snap.map k with
      | none =>
          have h1 := del_all_map_fst snap.map k
          have h2 := del_all_map_snd snap.map k
          rw [hal] at h2
          rw [aupdate_absent _ _ _ hal] at h1
          exact Prod.ext h1 h2
      | some vs =>
          rw [hal] at h0
          have hvs : vs = [] := by
            cases vs with
            | nil => rfl
            | cons a as => simp at h0
          subst hvs
          have h1 := del_all_map_fst snap.map k
          have h2 := del_all_map_snd snap.map k
          rw [hal] at h2
          rw [aupdate_of_lookup_eq _ _ _ hal] at h1
          exact Prod.ext h1 (by simpa using h2)
    simp [rwDel, h, hpair, aupdate_of_lookup_eq txn.snapshots db snap h]
  · intro hd v
    constructor
    · intro hv
      obtain ⟨vs, hvs, hvin⟩ : ∃ vs, alookup snap.map k = some vs ∧ v ∈ vs := by
        unfold valueSetOf at hv
        cases hal : alookup snap.map k with
        | none => rw [hal] at hv; simp at hv
        | some vs => exact ⟨vs, rfl, by rw [hal] at hv; simpa using hv⟩
      obtain ⟨e1, e2, e3, e4⟩ := del_exact_map_occupied snap.map k v vs hvs
      have hsnd : (Snapshot.del_exact_map k v snap.map).2 = some () := by
        rw [e1, if_pos hvin]
      have hdel : rwDel txn db k (some v) =
          (⟨aupdate txn.snapshots db
            { snap with map := (Snapshot.del_exact_map k v snap.map).1 }⟩, .ok ()) := by
        simp [rwDel, h, hd, hsnd]
      have hvsk : valueSetOf snap k = vs := by simp [valueSetOf, hvs]
      refine ⟨_, hdel, { snap with map := (Snapshot.del_exact_map k v snap.map).1 },
        alookup_aupdate_self _ _ _ _ h, ?_, ?_, ?_⟩
      · show alookup (Snapshot.del_exact_map k v snap.map).1 k = _
        rw [e2, hvsk]
      · intro w
        show w ∈ (alookup (Snapshot.del_exact_map k v snap.map).1 k).getD [] ↔ _
        rw [e2, hvsk]
        simpa using mem_setRemove_iff v w vs
      · intro k2 hk2
        show alookup (Snapshot.del_exact_map k v snap.map).1 k2 = alookup snap.map k2
        exact e3 k2 hk2
    · intro hnv
      cases hal : alookup snap.map k with
      | none =>
          have hde := del_exact_map_vacant snap.map k v hal
          simp [rwDel, h, hd, hde, aupdate_of_lookup_eq txn.snapshots db snap h]
      | some vs =>
          obtain ⟨e1, e2, e3, e4⟩ := del_exact_map_occupied snap.map k v vs hal
          have hv' : v ∉ vs := by
            intro hvin
            exact hnv (by simp [valueSetOf, hal, hvin])
          have hsnd : (Snapshot.del_exact_map k v snap.map).2 = none := by
            rw [e1, if_neg hv']
          have hfst : (Snapshot.del_exact_map k v snap.map).1 = snap.map := e4 hv'
          simp [rwDel, h, hd, hsnd, hfst, aupdate_of_lookup_eq txn.snapshots db snap h]

/-- Claim C4, witness: deleting a missing key from a DUP_SORT database
fails with `KeyValuePairNotFound` and leaves the transaction unchanged. -/
theorem c4_del_witness :
    rwDel ⟨[(0, ⟨⟨true, false, false⟩, [([0], [[1], [2]])]⟩)]⟩ 0 [7] none =
      (⟨[(0, ⟨⟨true, false, false⟩, [([0], [[1], [2]])]⟩)]⟩,
        .error .KeyValuePairNotFound) :=
  (c4_del_semantics ⟨[(0, ⟨⟨true, false, false⟩, [([0], [[1], [2]])]⟩)]⟩ 0
    ⟨⟨true, false, false⟩, [([0], [[1], [2]])]⟩ [7] (by decide) (by decide)).2.1
    (by decide)

/-! ## Claims C5 and C6: open_db / create_db -/

/-- Claim C5, counterexample to the claim as stated: with one live read
transaction, `open_db` fails with `DbsIllegalOpen` but `create_db`
succeeds — it performs no live-reader check. -/
theorem c5_create_db_counterexample :
    0 < ((beginRo ⟨[], [], 0, 0⟩).2).roTxns ∧
    openDb (beginRo ⟨[], [], 0, 0⟩).2 none = .error .DbsIllegalOpen ∧
    createDb (beginRo ⟨[], [], 0, 0⟩).2 none ⟨false, false, false⟩ =
      .ok (⟨[(0, Snapshot.new ⟨false, false, false⟩)], [(none, 0)], 1, 0⟩, 0) := by
  decide

/-- Claim C5, amended: while at least one read transaction is live,
`open_db` fails with `DbsIllegalOpen`; `create_db` performs no such check
and succeeds regardless of live readers. -/
theorem c5_reader_blocks_open_db_only (env : EnvState) (name : Option Bytes)
    (flags : DatabaseFlagsImpl) (h : 0 < env.roTxns) :
    openDb env name = .error .DbsIllegalOpen ∧
    ∃ r, createDb env name flags = .ok r := by
  constructor
  · simp [openDb, h]
  · cases hal : alookup env.dbs name with
    | some id => exact ⟨(env, id), by simp [createDb, hal]⟩
    | none =>
        exact ⟨({ env with
                  arena := env.arena ++ [(env.arena.length, Snapshot.new flags)],
                  dbs := env.dbs ++ [(name, env.arena.length)] }, env.arena.length),
          by simp [createDb, hal]⟩

/-- Claim C5, witness: the amended statement at an environment with one
live reader. -/
theorem c5_reader_witness :
    openDb ⟨[], [], 1, 0⟩ none = .error .DbsIllegalOpen ∧
    ∃ r, createDb ⟨[], [], 1, 0⟩ none ⟨false, false, false⟩ = .ok r :=
  c5_reader_blocks_open_db_only ⟨[], [], 1, 0⟩ none ⟨false, false, false⟩ (by decide)

/-- Claim C6, counterexample to the claim as stated: re-creating an
existing database with a different flag set is not an error — the second
`create_db` succeeds, returning the existing database untouched (its
original DUP_SORT flag survives, the new flags are ignored). -/
theorem c6_recreate_counterexample :
    createDb ⟨[], [], 0, 0⟩ (some [100]) ⟨true, false, false⟩ =
      .ok (⟨[(0, Snapshot.new ⟨true, false, false⟩)], [(some [100], 0)], 0, 0⟩, 0) ∧
    createDb ⟨[(0, Snapshot.new ⟨true, false, false⟩)], [(some [100], 0)], 0, 0⟩
        (some [100]) ⟨false, false, false⟩ =
      .ok (⟨[(0, Snapshot.new ⟨true, false, false⟩)], [(some [100], 0)], 0, 0⟩, 0) ∧
    alookup [(0, Snapshot.new ⟨true, false, false⟩)] 0 =
      some (Snapshot.new ⟨true, false, false⟩) := by
  decide

/-- Claim C6, amended: once a database exists, `create_db` under any flag
set silently returns the existing database and leaves the environment —
hence the database's original flags — unchanged; it does not report an
error. -/
theorem c6_recreate_ignores_flags (env : EnvState) (name : Option Bytes)
    (f2 : DatabaseFlagsImpl) (id : Nat) (h : alookup env.dbs name = some id) :
    createDb env name f2 = .ok (env, id) := by
  simp [createDb, h]

/-- Claim C6, witness: re-creating a DUP_SORT database with empty flags. -/
theorem c6_recreate_witness :
    createDb ⟨[(0, Snapshot.new ⟨true, false, false⟩)], [(some [100], 0)], 0, 0⟩
        (some [100]) ⟨false, false, false⟩ =
      .ok (⟨[(0, Snapshot.new ⟨true, false, false⟩)], [(some [100], 0)], 0, 0⟩, 0) :=
  c6_recreate_ignores_flags
    ⟨[(0, Snapshot.new ⟨true, false, false⟩)], [(some [100], 0)], 0, 0⟩
    (some [100]) ⟨false, false, false⟩ 0 (by decide)

/-! ## Claim C7: snapshot isolation -/

/-- Claim C7: a read transaction begun before a writer commits returns,
for every key, the value current when it began (its `get` reads only the
snapshot fleet captured at begin, which the commit — which installs new
snapshots into the environment rather than mutating shared ones — never
touches); the committed state is seen exactly by readers begun after the
commit. -/
theorem c7_snapshot_isolation (env : EnvState) (db : Nat) (snap : Snapshot)
    (k v : Bytes) (fl : WriteFlagsImpl)
    (hnd : (env.arena.map Prod.fst).Nodup)
    (h : alookup env.arena db = some snap)
    (hdup : snap.flags.dup_sort = false) :
    roGet (roTxnNew env) db k =
      (match snap.get k with
       | some w => .ok w
       | none => .error .KeyValuePairNotFound) ∧
    ∃ w', rwPut (rwTxnNew env) db k v fl = .ok w' ∧
      roGet (roTxnNew (rwCommit w' env)) db k = .ok v := by
  constructor
  · simp [roGet, roTxnNew, h]
  · have hput : rwPut (rwTxnNew env) db k v fl =
        .ok ⟨aupdate env.arena db (snap.put_one k v)⟩ := by
      simp [rwPut, rwTxnNew, h, hdup]
    refine ⟨_, hput, ?_⟩
    have harena : alookup (rwCommit ⟨aupdate env.arena db (snap.put_one k v)⟩ env).arena db =
        some (snap.put_one k v) := by
      unfold rwCommit
      apply alookup_foldl_aupdate
      · rw [aupdate_map_fst]
        exact hnd
      · exact alookup_aupdate_self _ _ _ _ h
      · exact ⟨snap, h⟩
    simp only [roGet, roTxnNew]
    rw [harena]
    simp [Snapshot.get, Snapshot.put_one, alookup_put_one_map]

/-- Claim C7, witness: a concrete one-database environment where the key
holds `[5]`; the pre-commit reader still reads `[5]` while a post-commit
reader reads the new `[9]`. -/
theorem c7_isolation_witness :
    roGet (roTxnNew ⟨[(0, ⟨⟨false, false, false⟩, [([0], [[5]])]⟩)], [(none, 0)], 0, 0⟩)
      0 [0] = .ok [5] ∧
    ∃ w', rwPut (rwTxnNew ⟨[(0, ⟨⟨false, false, false⟩, [([0], [[5]])]⟩)], [(none, 0)], 0, 0⟩)
        0 [0] [9] ⟨false, false, false, false⟩ = .ok w' ∧
      roGet (roTxnNew (rwCommit w'
        ⟨[(0, ⟨⟨false, false, false⟩, [([0], [[5]])]⟩)], [(none, 0)], 0, 0⟩)) 0 [0] =
        .ok [9] :=
  c7_snapshot_isolation ⟨[(0, ⟨⟨false, false, false⟩, [([0], [[5]])]⟩)], [(none, 0)], 0, 0⟩
    0 ⟨⟨false, false, false⟩, [([0], [[5]])]⟩ [0] [9] ⟨false, false, false, false⟩
    (by decide) (by decide) rfl

/-! ## Claim C8: manager uniqueness -/

/-- Claim C8: after `get_or_create` has produced a handle for a path,
every further `get_or_create` on that path — under any constructor
whatsoever, including a failing one — returns the very same handle
(pointer-equality is identity of the allocation id) and leaves the manager
unchanged, so at most one handle per canonical path ever exists. -/
theorem c8_manager_uniqueness (canon : PathM → PathM) (m m1 : Manager) (p : PathM)
    (f1 f2 : PathM → Except StoreErrorM RkvM) (h : Handle)
    (hfirst : getOrCreate canon m p f1 = .ok (h, m1)) :
    getOrCreate canon m1 p f2 = .ok (h, m1) := by
  unfold getOrCreate at hfirst ⊢
  cases hal : alookup m.stores (canon p) with
  | some h0 =>
      rw [hal] at hfirst
      simp only [Except.ok.injEq, Prod.mk.injEq] at hfirst
      obtain ⟨rfl, rfl⟩ := hfirst
      rw [hal]
  | none =>
      rw [hal] at hfirst
      cases hf : f1 (canon p) with
      | error e => rw [hf] at hfirst; cases hfirst
      | ok rkv =>
          rw [hf] at hfirst
          simp only [Except.ok.injEq, Prod.mk.injEq] at hfirst
          obtain ⟨rfl, rfl⟩ := hfirst
          rw [alookup_append_of_none m.stores (canon p) _ hal]

/-- Claim C8, witness: the second call returns the cached handle even when
its constructor would fail. -/
theorem c8_manager_witness :
    getOrCreate (fun q => q) ⟨[([1], ⟨0, ⟨[1]⟩⟩)], 1⟩ [1]
      (fun _ => .error .IoError) = .ok (⟨0, ⟨[1]⟩⟩, ⟨[([1], ⟨0, ⟨[1]⟩⟩)], 1⟩) :=
  c8_manager_uniqueness (fun q => q) ⟨[], 0⟩ ⟨[([1], ⟨0, ⟨[1]⟩⟩)], 1⟩ [1]
    (fun q => .ok ⟨q⟩) (fun _ => .error .IoError) ⟨0, ⟨[1]⟩⟩ rfl

/-! ## Claim C9: the migrator -/

theorem alookup_append {κ α : Type} [DecidableEq κ] (l1 l2 : List (κ × α)) (k : κ) :
    alookup (l1 ++ l2) k =
      match alookup l1 k with
      | some v => some v
      | none => alookup l2 k := by
  induction l1 with
  | nil => simp [alookup]
  | cons p rest ih =>
      obtain ⟨k0, v0⟩ := p
      by_cases hk : k0 = k
      · simp [alookup, hk]
      · simp only [List.cons_append, alookup, if_neg hk]
        exact ih

theorem putSingle_absent (d : List (Bytes × Bytes)) (k v : Bytes)
    (h : alookup d k = none) : putSingle d k v = d ++ [(k, v)] := by
  induction d with
  | nil => rfl
  | cons p rest ih =>
      obtain ⟨k0, v0⟩ := p
      by_cases hk : k0 = k
      · simp [alookup, hk] at h
      · simp only [alookup, if_neg hk] at h
        simp [putSingle, if_neg hk, ih h]

theorem copyPairs_append (pairs : List (Bytes × Bytes)) (acc : List (Bytes × Bytes))
    (hnd : (pairs.map Prod.fst).Nodup)
    (hdisj : ∀ k2 ∈ pairs.map Prod.fst, alookup acc k2 = none) :
    copyPairs pairs acc = acc ++ pairs := by
  induction pairs generalizing acc with
  | nil => simp [copyPairs]
  | cons p rest ih =>
      obtain ⟨k, v⟩ := p
      simp only [List.map_cons, List.nodup_cons] at hnd
      have hstep : copyPairs ((k, v) :: rest) acc = copyPairs rest (putSingle acc k v) := rfl
      rw [hstep, putSingle_absent acc k v (hdisj k (by simp))]
      rw [ih (acc ++ [(k, v)]) hnd.2 ?_]
      · rw [List.append_assoc]
        rfl
      · intro k2 hk2
        rw [alookup_append, hdisj k2 (by simp [hk2])]
        have hne : k ≠ k2 := fun he => hnd.1 (he ▸ hk2)
        simp [alookup, hne]

theorem migrate_fold (l : List (Option Bytes × List (Bytes × Bytes))) (a : MigEnv)
    (h : ∀ d ∈ l, (d.2.map Prod.fst).Nodup) :
    l.foldl (fun acc p => MigEnv.mk (acc.dbs ++ [(p.1, copyPairs p.2 [])])) a =
      ⟨a.dbs ++ l⟩ := by
  induction l generalizing a with
  | nil => simp
  | cons p rest ih =>
      have hc : copyPairs p.2 [] = p.2 := by
        simpa using copyPairs_append p.2 [] (h p (by simp)) (fun k2 _ => rfl)
      simp only [List.foldl_cons, hc]
      rw [ih ⟨a.dbs ++ [(p.1, p.2)]⟩ (fun d hd => h d (List.mem_cons_of_mem _ hd))]
      simp [List.append_assoc]

/-- Claim C9: the migrator fails `SourceEmpty` when the source has no
databases and `DestinationNotEmpty` when the destination has any (both
checks precede any copying — the error paths return before any database is
touched); otherwise it copies every key/value pair of every source
database into the destination and commits, so the destination ends with
exactly the source's databases. -/
theorem c9_migrator_checks_then_copies (src dst : MigEnv)
    (hnd : ∀ d ∈ src.dbs, (d.2.map Prod.fst).Nodup) :
    (src.dbs = [] → migrate src dst = .error .SourceEmpty) ∧
    (src.dbs ≠ [] → dst.dbs ≠ [] → migrate src dst = .error .DestinationNotEmpty) ∧
    (src.dbs ≠ [] → dst.dbs = [] → migrate src dst = .ok ⟨src.dbs⟩) := by
  refine ⟨?_, ?_, ?_⟩
  · intro h
    simp [migrate, h]
  · intro h1 h2
    have e1 : src.dbs.isEmpty = false := by
      cases hs : src.dbs with
      | nil => exact absurd hs h1
      | cons a as => simp
    have e2 : dst.dbs.isEmpty = false := by
      cases hs : dst.dbs with
      | nil => exact absurd hs h2
      | cons a as => simp
    simp [migrate, e1, e2]
  · intro h1 h2
    have e1 : src.dbs.isEmpty = false := by
      cases hs : src.dbs with
      | nil => exact absurd hs h1
      | cons a as => simp
    have e2 : dst.dbs.isEmpty = true := by simp [h2]
    simp only [migrate, e1, e2, Bool.false_eq_true, if_false, Bool.true_eq_false]
    rw [migrate_fold src.dbs dst hnd, h2]
    simp

/-- Claim C9, witness: a one-database source into an empty destination. -/
theorem c9_migrator_witness :
    migrate ⟨[(some [1], [([2], [3])])]⟩ ⟨[]⟩ = .ok ⟨[(some [1], [([2], [3])])]⟩ :=
  (c9_migrator_checks_then_copies ⟨[(some [1], [([2], [3])])]⟩ ⟨[]⟩
    (by decide)).2.2 (by decide) rfl

/-! ## Claim C10: put ignores its write flags -/

/-- Claim C10: the safe-mode `put` ignores its write-flags argument — any
two flag values produce identical results and identical snapshots.  In
particular a put with `NO_OVERWRITE` set on a key that is already present
succeeds and overwrites. -/
theorem c10_put_ignores_write_flags (txn : RwTxn) (db : Nat) (snap : Snapshot)
    (k v v0 : Bytes) (f1 f2 : WriteFlagsImpl) :
    rwPut txn db k v f1 = rwPut txn db k v f2 ∧
    (alookup txn.snapshots db = some snap → snap.flags.dup_sort = false →
      snap.get k = some v0 →
      ∃ txn', rwPut txn db k v f1 = .ok txn' ∧
        ∃ snap', alookup txn'.snapshots db = some snap' ∧ snap'.get k = some v) := by
  refine ⟨rfl, fun h hdup _ => ?_⟩
  have hput : rwPut txn db k v f1 = .ok ⟨aupdate txn.snapshots db (snap.put_one k v)⟩ := by
    simp [rwPut, h, hdup]
  refine ⟨_, hput, snap.put_one k v, alookup_aupdate_self _ _ _ _ h, ?_⟩
  show (alookup (snap.put_one k v).map k).bind List.head? = some v
  simp [Snapshot.put_one, alookup_put_one_map]

/-- Claim C10, witness: a `NO_OVERWRITE` put on a key already holding `[5]`
succeeds and overwrites it with `[9]`. -/
theorem c10_flags_witness :
    ∃ txn', rwPut ⟨[(0, ⟨⟨false, false, false⟩, [([0], [[5]])]⟩)]⟩ 0 [0] [9]
        ⟨true, false, false, false⟩ = .ok txn' ∧
      ∃ snap', alookup txn'.snapshots 0 = some snap' ∧ snap'.get [0] = some [9] :=
  (c10_put_ignores_write_flags ⟨[(0, ⟨⟨false, false, false⟩, [([0], [[5]])]⟩)]⟩ 0
    ⟨⟨false, false, false⟩, [([0], [[5]])]⟩ [0] [9] [5] ⟨true, false, false, false⟩
    ⟨false, false, false, false⟩).2 (by decide) rfl (by decide)

end Rkv
